import Mathlib

/-!
# GimpCircle: a verification development for `app/widgets/gimpcircle.c`

The widget shell (size negotiation, the realize/map lifecycle of the input-only
event window, the expose handler) is embedded over `Int` (`gint`) and explicit
state passing.  The rasterizer (`get_angle_and_distance`,
`gimp_circle_background_hsv`, the pixel loop and the cairo calls of
`gimp_circle_draw_background`) is embedded over an arbitrary linearly ordered
field `α` standing for `gdouble`, with the libm entry points (`sqrt`, `atan2`)
and the constant `G_PI` supplied as a record; the theorems instantiate it with
the real numbers, i.e. they are about the exact (rounding-free) arithmetic of
the C expressions.

`gint` arithmetic is modelled in `Int`: the `size` and `border-width`
properties are installed with the ranges 32..1024 and 0..64, so none of the
integer expressions of this file can leave the `gint` range on a widget state
(`size_request_fits_gint` below).
-/

namespace Gimp

/-! ## Data model -/

/-- The arguments `minimum, maximum, default_value` of a `g_param_spec_int` call. -/
structure GParamSpecInt where
  minimum : Int
  maximum : Int
  default_value : Int
  deriving DecidableEq

/-- The `"size"` property installed by `gimp_circle_class_init`. -/
def size_pspec : GParamSpecInt := ⟨32, 1024, 96⟩

/-- The `"border-width"` property installed by `gimp_circle_class_init`. -/
def border_width_pspec : GParamSpecInt := ⟨0, 64, 0⟩

/-- Modelled from the spec: the two enumerators of `GimpCircleBackground`
(`Plain | HsvWheel`); the enumeration is declared in `widgets-enums.h`, which is
not part of the sources at hand.  A C enumeration is an integer type, so the
model is `Int` and values other than the two enumerators can be written down. -/
abbrev GimpCircleBackground := Int

/-- Modelled from the spec: the enumerator `Plain` (first enumerator of the
missing declaration). -/
def GIMP_CIRCLE_BACKGROUND_PLAIN : GimpCircleBackground := 0

/-- Modelled from the spec: the enumerator `HsvWheel` (second enumerator of the
missing declaration). -/
def GIMP_CIRCLE_BACKGROUND_HSV : GimpCircleBackground := 1

/-- A `GtkAllocation` / `GdkRectangle`. -/
structure GtkAllocation where
  x : Int
  y : Int
  width : Int
  height : Int
  deriving DecidableEq

/-- A `GtkRequisition`. -/
structure GtkRequisition where
  width : Int
  height : Int
  deriving DecidableEq

/-- The part of a `GdkWindow` the widget touches: the geometry and class given
to `gdk_window_new`, and whether the window is currently shown
(`gdk_window_show` / `gdk_window_hide`). -/
structure GdkWindow where
  x : Int
  y : Int
  width : Int
  height : Int
  input_only : Bool
  shown : Bool
  deriving DecidableEq

/-- The fields of `struct _GimpCirclePrivate`; a `NULL` `event_window` is `none`. -/
structure GimpCirclePrivate where
  size : Int
  border_width : Int
  background : GimpCircleBackground
  event_window : Option GdkWindow
  deriving DecidableEq

/-- The toolkit-owned flags and allocation of the `GtkWidget` base instance. -/
structure GtkWidget where
  visible : Bool
  realized : Bool
  mapped : Bool
  allocation : GtkAllocation
  deriving DecidableEq

/-- A `GimpCircle` instance: the base widget and the private data. -/
structure GimpCircle where
  widget : GtkWidget
  priv : GimpCirclePrivate
  deriving DecidableEq

/-- The function `gimp_circle_new`: `g_object_new` zero-fills the private data and,
because all three properties are `G_PARAM_CONSTRUCT`, stores their defaults. The
base widget starts hidden, unrealized and unmapped with GTK's initial allocation. -/
def gimp_circle_new : GimpCircle :=
  { widget := { visible := false, realized := false, mapped := false,
                allocation := ⟨-1, -1, 1, 1⟩ },
    priv := { size := size_pspec.default_value,
              border_width := border_width_pspec.default_value,
              background := GIMP_CIRCLE_BACKGROUND_HSV,
              event_window := none } }

/-! ## Size negotiation -/

/-- The function `gimp_circle_size_request`: the requisition it stores. -/
def gimp_circle_size_request (circle : GimpCircle) : GtkRequisition :=
  { width  := 2 * circle.priv.border_width + circle.priv.size,
    height := 2 * circle.priv.border_width + circle.priv.size }

/-- Whether an integer is a value of the 32-bit `gint`. -/
def fits_gint (v : Int) : Prop := -2147483648 ≤ v ∧ v ≤ 2147483647

/-- Whether a value is admitted by an integer property specification. -/
def GParamSpecInt.admits (p : GParamSpecInt) (v : Int) : Prop :=
  p.minimum ≤ v ∧ v ≤ p.maximum

/-! ## Lifecycle of the event window -/

/-- The default `realize` of the parent class: sets the realized flag. -/
def parent_realize (w : GtkWidget) : GtkWidget := { w with realized := true }

/-- The default `unrealize` of the parent class: clears the realized flag. -/
def parent_unrealize (w : GtkWidget) : GtkWidget := { w with realized := false }

/-- The default `map` of the parent class: sets the mapped flag. -/
def parent_map (w : GtkWidget) : GtkWidget := { w with mapped := true }

/-- The default `unmap` of the parent class: clears the mapped flag. -/
def parent_unmap (w : GtkWidget) : GtkWidget := { w with mapped := false }

/-- The call `gdk_window_new` with the attributes filled in by
`gimp_circle_realize`: a new window is not shown. -/
def gdk_window_new (allocation : GtkAllocation) : GdkWindow :=
  { x := allocation.x, y := allocation.y,
    width := allocation.width, height := allocation.height,
    input_only := true, shown := false }

/-- The function `gimp_circle_realize`. -/
def gimp_circle_realize (circle : GimpCircle) : GimpCircle :=
  let widget := parent_realize circle.widget
  { widget := widget,
    priv := { circle.priv with event_window := some (gdk_window_new widget.allocation) } }

/-- The function `gimp_circle_unrealize`. -/
def gimp_circle_unrealize (circle : GimpCircle) : GimpCircle :=
  let priv :=
    match circle.priv.event_window with
    | some _ => { circle.priv with event_window := none }
    | none => circle.priv
  { widget := parent_unrealize circle.widget, priv := priv }

/-- The function `gimp_circle_map`. -/
def gimp_circle_map (circle : GimpCircle) : GimpCircle :=
  let widget := parent_map circle.widget
  let priv :=
    match circle.priv.event_window with
    | some w => { circle.priv with event_window := some { w with shown := true } }
    | none => circle.priv
  { widget := widget, priv := priv }

/-- The function `gimp_circle_unmap`. -/
def gimp_circle_unmap (circle : GimpCircle) : GimpCircle :=
  let priv :=
    match circle.priv.event_window with
    | some w => { circle.priv with event_window := some { w with shown := false } }
    | none => circle.priv
  { widget := parent_unmap circle.widget, priv := priv }

/-- The four lifecycle callbacks the toolkit invokes. -/
inductive Lifecycle where
  | realize
  | map
  | unmap
  | unrealize
  deriving DecidableEq

/-- The callback run for a lifecycle event. -/
def Lifecycle.run : Lifecycle → GimpCircle → GimpCircle
  | .realize => gimp_circle_realize
  | .map => gimp_circle_map
  | .unmap => gimp_circle_unmap
  | .unrealize => gimp_circle_unrealize

/-- The sequencing the host toolkit enforces: realize only when unrealized, map
only when realized and unmapped, unmap only when mapped, unrealize only when
realized and unmapped. -/
def Lifecycle.allowed : Lifecycle → GimpCircle → Bool
  | .realize, c => !c.widget.realized
  | .map, c => c.widget.realized && !c.widget.mapped
  | .unmap, c => c.widget.mapped
  | .unrealize, c => c.widget.realized && !c.widget.mapped

/-- Runs a sequence of lifecycle events; `none` when the sequence is not well formed. -/
def run_lifecycle : List Lifecycle → GimpCircle → Option GimpCircle
  | [], c => some c
  | e :: es, c => if e.allowed c then run_lifecycle es (e.run c) else none

/-- Whether the event window exists. -/
def event_window_present (c : GimpCircle) : Bool := c.priv.event_window.isSome

/-- Whether the event window exists and is shown. -/
def event_window_shown (c : GimpCircle) : Bool :=
  match c.priv.event_window with
  | some w => w.shown
  | none => false

/-- The invariant of the data model, together with the toolkit fact that a
mapped widget is realized. -/
def lifecycle_inv (c : GimpCircle) : Prop :=
  (event_window_present c = c.widget.realized) ∧
  (event_window_shown c = (c.widget.mapped && c.widget.realized)) ∧
  (c.widget.mapped = true → c.widget.realized = true)

/-! ## The rasterizer -/

/-- The libm entry points and the constant the rasterizer uses on `gdouble`. -/
structure LibM (α : Type) where
  sqrt : α → α
  atan2 : α → α → α
  G_PI : α

/-- Modelled from the spec: the macro `SQR` of libgimpmath (its header is not
among the sources at hand), the square taken in the Euclidean distance. -/
def SQR {α : Type} [Mul α] (x : α) : α := x * x

/-- The function `get_angle_and_distance`: the returned angle, paired with the
value it stores through `distance` (the only caller passes a non-`NULL` pointer). -/
def get_angle_and_distance {α : Type} [LinearOrderedField α] (m : LibM α)
    (center_x center_y radius x y : α) : α × α :=
  let angle := m.atan2 (center_y - y) (x - center_x)
  let angle := if angle < 0 then angle + 2 * m.G_PI else angle
  let distance := m.sqrt ((SQR (x - center_x) + SQR (y - center_y)) / SQR radius)
  (angle, distance)

/-- The function `gimp_circle_background_hsv`; the conversion `gimp_hsv_to_rgb4`
of libgimpcolor is a parameter, applied to (hue, saturation, value). -/
def gimp_circle_background_hsv {α β : Type} [LinearOrderedField α] (m : LibM α)
    (gimp_hsv_to_rgb4 : α → α → α → β) (angle distance : α) : β :=
  let v := 1 - m.sqrt distance / 4
  gimp_hsv_to_rgb4 (angle / (2 * m.G_PI)) distance v

/-- The local `guchar rgb[3]`. -/
structure RGB where
  r : Nat
  g : Nat
  b : Nat
  deriving DecidableEq

/-- Modelled from the spec: one use of the macro
`GIMP_CAIRO_ARGB32_SET_PIXEL (data + offset, r, g, b, a)` of libgimpcolor (its
header is not among the sources at hand); it stores the pixel with the given
colour and alpha in the four bytes starting at `offset`. -/
structure PixelWrite where
  offset : Int
  r : Nat
  g : Nat
  b : Nat
  a : Nat
  deriving DecidableEq

/-- The colour the body of the pixel loop computes for the pixel `(x, y)`:
the call of `get_angle_and_distance` and the `switch (background)`; `rgb0` is
the initial content `{ 0, }` of the local `rgb`. -/
def pixel_colour {α β : Type} [LinearOrderedField α] (m : LibM α)
    (gimp_hsv_to_rgb4 : α → α → α → β) (rgb0 : β)
    (size : Int) (background : GimpCircleBackground) (x y : Int) : β :=
  let ad := get_angle_and_distance m ((size : α) / 2) ((size : α) / 2) ((size : α) / 2)
              (x : α) (y : α)
  if background = GIMP_CIRCLE_BACKGROUND_HSV then
    gimp_circle_background_hsv m gimp_hsv_to_rgb4 ad.1 ad.2
  else
    rgb0

/-- The body of the pixel loop: the write it performs for the pixel `(x, y)`. -/
def pixel_write {α : Type} [LinearOrderedField α] (m : LibM α)
    (gimp_hsv_to_rgb4 : α → α → α → RGB)
    (size stride : Int) (background : GimpCircleBackground) (x y : Int) : PixelWrite :=
  let rgb := pixel_colour m gimp_hsv_to_rgb4 ⟨0, 0, 0⟩ size background x y
  { offset := y * stride + x * 4, r := rgb.r, g := rgb.g, b := rgb.b, a := 255 }

/-- The inner loop `for (x = ...; x < size; x++)` of row `y`, entered with the
counter at `x`; `data` is the log of the writes made so far. -/
def pixel_loop_x {α : Type} [LinearOrderedField α] (m : LibM α)
    (gimp_hsv_to_rgb4 : α → α → α → RGB)
    (size stride : Int) (background : GimpCircleBackground) (y : Int)
    (x : Int) (data : List PixelWrite) : List PixelWrite :=
  if x < size then
    pixel_loop_x m gimp_hsv_to_rgb4 size stride background y (x + 1)
      (data ++ [pixel_write m gimp_hsv_to_rgb4 size stride background x y])
  else
    data
termination_by (size - x).toNat
decreasing_by omega

/-- The outer loop `for (y = ...; y < size; y++)`, entered with the counter at `y`. -/
def pixel_loop_y {α : Type} [LinearOrderedField α] (m : LibM α)
    (gimp_hsv_to_rgb4 : α → α → α → RGB)
    (size stride : Int) (background : GimpCircleBackground)
    (y : Int) (data : List PixelWrite) : List PixelWrite :=
  if y < size then
    pixel_loop_y m gimp_hsv_to_rgb4 size stride background (y + 1)
      (pixel_loop_x m gimp_hsv_to_rgb4 size stride background y 0 data)
  else
    data
termination_by (size - y).toNat
decreasing_by omega

/-- An ARGB32 image surface: its geometry and the log of the pixel writes made
into its (initially zero, i.e. transparent) data. -/
structure ImageSurface where
  width : Int
  height : Int
  stride : Int
  data : List PixelWrite
  deriving DecidableEq

/-- The calls `gimp_circle_draw_background` makes on the cairo context. -/
inductive CairoOp (α : Type) where
  | save
  | restore
  | arc (xc yc radius angle1 angle2 : α)
  | set_line_width (width : α)
  | set_source_rgba (red green blue alpha : α)
  | stroke_preserve
  | stroke
  | set_source_surface (surface : ImageSurface) (x y : α)
  | clip
  | paint

/-- The function `gimp_circle_draw_background`: the sequence of calls on `cr`.
The stride reported by `cairo_image_surface_get_stride` is a parameter. -/
def gimp_circle_draw_background {α : Type} [LinearOrderedField α] (m : LibM α)
    (gimp_hsv_to_rgb4 : α → α → α → RGB) (stride : Int)
    (size : Int) (background : GimpCircleBackground) : List (CairoOp α) :=
  [CairoOp.save] ++
  (if background = GIMP_CIRCLE_BACKGROUND_PLAIN then
    [ CairoOp.arc ((size : α) / 2) ((size : α) / 2) ((size : α) / 2 - 1.5) 0 (2 * m.G_PI),
      CairoOp.set_line_width 3,
      CairoOp.set_source_rgba 1 1 1 0.6,
      CairoOp.stroke_preserve,
      CairoOp.set_line_width 1,
      CairoOp.set_source_rgba 0 0 0 0.8,
      CairoOp.stroke ]
  else
    let surface : ImageSurface :=
      { width := size, height := size, stride := stride,
        data := pixel_loop_y m gimp_hsv_to_rgb4 size stride background 0 [] }
    [ CairoOp.set_source_surface surface 0 0,
      CairoOp.arc ((size : α) / 2) ((size : α) / 2) ((size : α) / 2) 0 (2 * m.G_PI),
      CairoOp.clip,
      CairoOp.paint ]) ++
  [CairoOp.restore]

/-- The C division of `gint` by a positive constant (truncation toward zero). -/
def gint_div (a b : Int) : Int := Int.tdiv a b

/-- The function `gtk_widget_is_drawable`. -/
def gtk_widget_is_drawable (w : GtkWidget) : Bool := w.visible && w.mapped

/-- What `gimp_circle_expose_event` does when the widget is drawable: the two
arguments of `cairo_translate` and the calls of `gimp_circle_draw_background`. -/
structure ExposePaint (α : Type) where
  translate_x : Int
  translate_y : Int
  background : List (CairoOp α)

/-- The function `gimp_circle_expose_event`; `none` when the widget is not
drawable and nothing is painted (the handler returns `FALSE` either way). -/
def gimp_circle_expose_event {α : Type} [LinearOrderedField α] (m : LibM α)
    (gimp_hsv_to_rgb4 : α → α → α → RGB) (stride : Int)
    (circle : GimpCircle) : Option (ExposePaint α) :=
  if gtk_widget_is_drawable circle.widget then
    let allocation := circle.widget.allocation
    let size := circle.priv.size
    some { translate_x := allocation.x + gint_div (allocation.width - size) 2,
           translate_y := allocation.y + gint_div (allocation.height - size) 2,
           background := gimp_circle_draw_background m gimp_hsv_to_rgb4 stride size
                           circle.priv.background }
  else
    none

/-! ## What the cairo calls paint

A small model of the cairo drawing operations used above, after the cairo
reference manual: the path holds arcs, `clip` intersects the clip region with the
filled path and clears the path, `stroke` paints the outline of the path with the
current source and line width, `paint` paints the current source everywhere inside
the clip region, and `save`/`restore` push and pop the graphics state.  All arcs
of this file are full turns, so a filled arc is a closed disc. -/

/-- An arc added to the path by `cairo_arc`. -/
structure Arc (α : Type) where
  xc : α
  yc : α
  radius : α
  angle1 : α
  angle2 : α

/-- The current source of a cairo context. -/
inductive Source (α : Type) where
  | rgba (red green blue alpha : α)
  | surface (surface : ImageSurface) (x y : α)

/-- The graphics state saved by `cairo_save`. -/
structure GState (α : Type) where
  source : Source α
  line_width : α
  clip : List (Arc α)

/-- A drawing operation that reached the target, with the state it was issued in. -/
inductive Drawn (α : Type) where
  | stroke (path : List (Arc α)) (line_width : α) (source : Source α) (clip : List (Arc α))
  | paint (source : Source α) (clip : List (Arc α))

/-- A cairo context: graphics state, stack of saved states, current path and
the drawing operations performed so far. -/
structure Cairo (α : Type) where
  gstate : GState α
  saved : List (GState α)
  path : List (Arc α)
  drawn : List (Drawn α)

/-- A fresh context: opaque black source, line width 2, no clip, empty path. -/
def Cairo.create {α : Type} [LinearOrderedField α] : Cairo α :=
  { gstate := { source := Source.rgba 0 0 0 1, line_width := 2, clip := [] },
    saved := [], path := [], drawn := [] }

/-- The effect of one call on the context. -/
def Cairo.exec {α : Type} (c : Cairo α) : CairoOp α → Cairo α
  | .save => { c with saved := c.gstate :: c.saved }
  | .restore =>
    match c.saved with
    | g :: rest => { c with gstate := g, saved := rest }
    | [] => c
  | .arc xc yc radius angle1 angle2 =>
    { c with path := c.path ++ [⟨xc, yc, radius, angle1, angle2⟩] }
  | .set_line_width w => { c with gstate := { c.gstate with line_width := w } }
  | .set_source_rgba red green blue alpha =>
    { c with gstate := { c.gstate with source := Source.rgba red green blue alpha } }
  | .stroke_preserve =>
    { c with drawn := c.drawn ++
        [Drawn.stroke c.path c.gstate.line_width c.gstate.source c.gstate.clip] }
  | .stroke =>
    { c with
      path := []
      drawn := c.drawn ++
        [Drawn.stroke c.path c.gstate.line_width c.gstate.source c.gstate.clip] }
  | .set_source_surface s x y =>
    { c with gstate := { c.gstate with source := Source.surface s x y } }
  | .clip =>
    { c with
      path := []
      gstate := { c.gstate with clip := c.gstate.clip ++ c.path } }
  | .paint => { c with drawn := c.drawn ++ [Drawn.paint c.gstate.source c.gstate.clip] }

/-- The drawing operations a sequence of calls performs on a fresh context. -/
def cairo_drawn {α : Type} [LinearOrderedField α] (ops : List (CairoOp α)) : List (Drawn α) :=
  (ops.foldl Cairo.exec Cairo.create).drawn

/-- The pixel stored in an image surface at `(x, y)`: the last write at offset
`y * stride + x * 4`, transparent black when the pixel was never written or lies
outside the surface. -/
def ImageSurface.pixel (s : ImageSurface) (x y : Int) : PixelWrite :=
  if 0 ≤ x ∧ x < s.width ∧ 0 ≤ y ∧ y < s.height then
    match s.data.reverse.find? (fun w => decide (w.offset = y * s.stride + x * 4)) with
    | some w => w
    | none => ⟨y * s.stride + x * 4, 0, 0, 0, 0⟩
  else
    ⟨y * s.stride + x * 4, 0, 0, 0, 0⟩

/-- Whether a point lies in the closed disc bounded by a (full-turn) arc. -/
def Arc.contains {α : Type} [LinearOrderedField α] (a : Arc α) (p : α × α) : Prop :=
  SQR (p.1 - a.xc) + SQR (p.2 - a.yc) ≤ SQR a.radius

/-- Whether a point lies in the clip region. -/
def in_clip {α : Type} [LinearOrderedField α] (clip : List (Arc α)) (p : α × α) : Prop :=
  ∀ a ∈ clip, a.contains p

/-- Whether a point lies on the outline of an arc stroked with the given line width. -/
def Arc.on_stroke {α : Type} [LinearOrderedField α] (a : Arc α) (line_width : α)
    (p : α × α) : Prop :=
  (a.radius ≤ line_width / 2 ∨
    SQR (a.radius - line_width / 2) ≤ SQR (p.1 - a.xc) + SQR (p.2 - a.yc)) ∧
  SQR (p.1 - a.xc) + SQR (p.2 - a.yc) ≤ SQR (a.radius + line_width / 2)

/-- Whether a point lies in the unit square `[x, x+1] × [y, y+1]` of the pixel `(x, y)`. -/
def in_pixel {α : Type} [LinearOrderedField α] (x y : Int) (p : α × α) : Prop :=
  (x : α) ≤ p.1 ∧ p.1 ≤ (x : α) + 1 ∧ (y : α) ≤ p.2 ∧ p.2 ≤ (y : α) + 1

/-- The colour a source supplies to the target pixel `(x, y)`, as
`(r, g, b, a)` bytes, when it is not transparent there. -/
def Source.supplies {α : Type} [LinearOrderedField α] (src : Source α) (x y : Int)
    (colour : PixelWrite) : Prop :=
  match src with
  | .rgba _ _ _ alpha => 0 < alpha
  | .surface s sx sy =>
    ∃ i j : Int, sx = (i : α) ∧ sy = (j : α) ∧ colour = s.pixel (x - i) (y - j) ∧ colour.a ≠ 0

/-- Whether a drawing operation puts colour on some part of the pixel `(x, y)`. -/
def Drawn.touches {α : Type} [LinearOrderedField α] (d : Drawn α) (x y : Int) : Prop :=
  match d with
  | .paint src clip =>
    (∃ p, in_pixel x y p ∧ in_clip clip p) ∧ ∃ colour, src.supplies x y colour
  | .stroke path w src clip =>
    (∃ p, in_pixel x y p ∧ in_clip clip p ∧ ∃ a ∈ path, a.on_stroke w p) ∧
      ∃ colour, src.supplies x y colour

/-- Whether a `paint` covers the whole pixel `(x, y)` with the given source colour. -/
def Drawn.fills {α : Type} [LinearOrderedField α] (d : Drawn α) (x y : Int)
    (colour : PixelWrite) : Prop :=
  match d with
  | .paint src clip => (∀ p, in_pixel x y p → in_clip clip p) ∧ src.supplies x y colour
  | .stroke _ _ _ _ => False

/-- Whether a sequence of cairo calls puts colour on some part of the pixel `(x, y)`. -/
def receives_colour {α : Type} [LinearOrderedField α] (ops : List (CairoOp α))
    (x y : Int) : Prop :=
  ∃ d ∈ cairo_drawn ops, d.touches x y

/-- Whether a sequence of cairo calls paints nothing at all. -/
def paints_nothing {α : Type} [LinearOrderedField α] (ops : List (CairoOp α)) : Prop :=
  ∀ x y : Int, ¬ receives_colour ops x y

/-! ## The real-number reading of `gdouble` -/

/-- The libm functions on the reals: `sqrt`, `atan2 y x` as the argument of the
complex number `x + y i` (in `(-π, π]`, and `0` at the origin), and `π`. -/
noncomputable def realLibM : LibM ℝ :=
  { sqrt := Real.sqrt,
    atan2 := fun y x => Complex.arg ⟨x, y⟩,
    G_PI := Real.pi }

/-- The Euclidean distance from `(x, y)` to `(center_x, center_y)`, as the
specification words it. -/
noncomputable def euclidean_distance (center_x center_y x y : ℝ) : ℝ :=
  Real.sqrt ((x - center_x) ^ 2 + (y - center_y) ^ 2)

/-- The HSV value `gimp_circle_background_hsv` hands to the colour conversion. -/
noncomputable def hsv_value (angle distance : ℝ) : ℝ :=
  gimp_circle_background_hsv realLibM (fun _ _ v => v) angle distance

/-- The (hue, saturation, value) triple the pixel loop hands to the colour
conversion for the pixel `(x, y)` of an HSV wheel of the given size. -/
noncomputable def wheel_hsv (size x y : Int) : ℝ × ℝ × ℝ :=
  pixel_colour realLibM (fun h s v => (h, s, v)) (0, 0, 0) size
    GIMP_CIRCLE_BACKGROUND_HSV x y

/-- The normalised distance the pixel loop computes for the pixel `(x, y)`. -/
noncomputable def wheel_distance (size x y : Int) : ℝ :=
  (get_angle_and_distance realLibM ((size : ℝ) / 2) ((size : ℝ) / 2) ((size : ℝ) / 2)
    (x : ℝ) (y : ℝ)).2

/-! ## Specification-side descriptions of the buffer -/

/-- The pixels `(x, y)` with `0 ≤ x, y < n` in row-major order (rows `y`
ascending, within a row `x` ascending), each mapped through `f x y`. -/
def row_major {β : Type} (n : Nat) (f : Int → Int → β) : List β :=
  (List.range n).flatMap (fun j : Nat => (List.range n).map (fun i : Nat => f (i : Int) (j : Int)))

/-- The write the specification prescribes for the pixel `(x, y)` of an HSV
wheel: offset `y * stride + x * 4`, alpha 255, and the conversion of
hue = angle / 2π, saturation = distance, value = 1 - sqrt(distance) / 4, with
(angle, distance) computed about the centre (size/2, size/2) with radius size/2
(real halves). -/
noncomputable def hsv_wheel_pixel (gimp_hsv_to_rgb4 : ℝ → ℝ → ℝ → RGB)
    (size stride x y : Int) : PixelWrite :=
  let angle := (get_angle_and_distance realLibM ((size : ℝ) / 2) ((size : ℝ) / 2)
                  ((size : ℝ) / 2) (x : ℝ) (y : ℝ)).1
  let distance := (get_angle_and_distance realLibM ((size : ℝ) / 2) ((size : ℝ) / 2)
                  ((size : ℝ) / 2) (x : ℝ) (y : ℝ)).2
  let rgb := gimp_hsv_to_rgb4 (angle / (2 * Real.pi)) distance (1 - Real.sqrt distance / 4)
  { offset := y * stride + x * 4, r := rgb.r, g := rgb.g, b := rgb.b, a := 255 }

/-- The clip path of the raster branch: the full circle of radius size/2 about
(size/2, size/2). -/
def clip_circle {α : Type} [LinearOrderedField α] (m : LibM α) (size : Int) : Arc α :=
  ⟨(size : α) / 2, (size : α) / 2, (size : α) / 2, 0, 2 * m.G_PI⟩

/-- The image surface the raster branch of `gimp_circle_draw_background` fills
and installs as source. -/
def wheel_surface {α : Type} [LinearOrderedField α] (m : LibM α)
    (gimp_hsv_to_rgb4 : α → α → α → RGB) (stride size : Int)
    (background : GimpCircleBackground) : ImageSurface :=
  { width := size, height := size, stride := stride,
    data := pixel_loop_y m gimp_hsv_to_rgb4 size stride background 0 [] }

/-! ## Theorems: size negotiation -/

/-- On a widget state admitted by the two property specifications, the integer
expressions of `gimp_circle_size_request` stay inside the `gint` range. -/
theorem size_request_fits_gint (circle : GimpCircle)
    (hs : size_pspec.admits circle.priv.size)
    (hb : border_width_pspec.admits circle.priv.border_width) :
    fits_gint (2 * circle.priv.border_width) ∧
    fits_gint (gimp_circle_size_request circle).width := by
  simp only [GParamSpecInt.admits, size_pspec, border_width_pspec] at hs hb
  simp only [fits_gint, gimp_circle_size_request]
  omega

/-- C1: for every widget state, `gimp_circle_size_request` reports a square
requisition with width = height = size + 2 * border_width; a widget holding the
default size 96 and the default border width 0 requests 96 x 96. -/
theorem C1_size_request_square (circle : GimpCircle) :
    (gimp_circle_size_request circle).width
        = circle.priv.size + 2 * circle.priv.border_width ∧
    (gimp_circle_size_request circle).height
        = circle.priv.size + 2 * circle.priv.border_width ∧
    (circle.priv.size = size_pspec.default_value →
      circle.priv.border_width = border_width_pspec.default_value →
      gimp_circle_size_request circle = ⟨96, 96⟩) := by
  refine ⟨?_, ?_, ?_⟩
  · simp only [gimp_circle_size_request]; ring
  · simp only [gimp_circle_size_request]; ring
  · intro hs hb
    simp only [gimp_circle_size_request, hs, hb, size_pspec, border_width_pspec]
    rfl

/-- C1 at the freshly constructed widget: it requests 96 x 96. -/
theorem C1_size_request_square_witness :
    gimp_circle_size_request gimp_circle_new = ⟨96, 96⟩ :=
  (C1_size_request_square gimp_circle_new).2.2 rfl rfl

/-! ## Theorems: the expose handler -/

/-- C10: when drawable and allocated exactly the square it requested (with
border_width >= 0), `gimp_circle_expose_event` translates by
(allocation.x + border_width, allocation.y + border_width), so the size x size
background is inset by border_width on all four sides; for any allocation with
width >= size the left margin is (width - size) / 2 and the right margin exceeds
it by 0 or 1. -/
theorem C10_expose_translation {α : Type} [LinearOrderedField α] (m : LibM α)
    (gimp_hsv_to_rgb4 : α → α → α → RGB) (stride : Int) (circle : GimpCircle)
    (hdraw : gtk_widget_is_drawable circle.widget = true) :
    ∃ e, gimp_circle_expose_event m gimp_hsv_to_rgb4 stride circle = some e ∧
      e.background = gimp_circle_draw_background m gimp_hsv_to_rgb4 stride
                        circle.priv.size circle.priv.background ∧
      (0 ≤ circle.priv.border_width →
        circle.widget.allocation.width = (gimp_circle_size_request circle).width →
        circle.widget.allocation.height = (gimp_circle_size_request circle).height →
          e.translate_x = circle.widget.allocation.x + circle.priv.border_width ∧
          e.translate_y = circle.widget.allocation.y + circle.priv.border_width ∧
          (circle.widget.allocation.x + circle.widget.allocation.width)
            - (e.translate_x + circle.priv.size) = circle.priv.border_width ∧
          (circle.widget.allocation.y + circle.widget.allocation.height)
            - (e.translate_y + circle.priv.size) = circle.priv.border_width) ∧
      (circle.priv.size ≤ circle.widget.allocation.width →
        e.translate_x - circle.widget.allocation.x
          = gint_div (circle.widget.allocation.width - circle.priv.size) 2 ∧
        e.translate_x - circle.widget.allocation.x
          ≤ (circle.widget.allocation.x + circle.widget.allocation.width)
              - (e.translate_x + circle.priv.size) ∧
        (circle.widget.allocation.x + circle.widget.allocation.width)
              - (e.translate_x + circle.priv.size)
          ≤ (e.translate_x - circle.widget.allocation.x) + 1) := by
  refine ⟨⟨circle.widget.allocation.x
              + gint_div (circle.widget.allocation.width - circle.priv.size) 2,
            circle.widget.allocation.y
              + gint_div (circle.widget.allocation.height - circle.priv.size) 2,
            gimp_circle_draw_background m gimp_hsv_to_rgb4 stride
              circle.priv.size circle.priv.background⟩,
          by simp only [gimp_circle_expose_event, hdraw, if_true], rfl, ?_, ?_⟩
  · intro hb hw hh
    simp only [gimp_circle_size_request] at hw hh
    have e1 : circle.widget.allocation.width - circle.priv.size
        = 2 * circle.priv.border_width := by omega
    have e2 : circle.widget.allocation.height - circle.priv.size
        = 2 * circle.priv.border_width := by omega
    have e3 : Int.tdiv (2 * circle.priv.border_width) 2 = circle.priv.border_width := by
      rw [Int.tdiv_eq_ediv (by omega) (by omega)]; omega
    simp only [gint_div, e1, e2]
    rw [e3]
    omega
  · intro hw
    have e3 : Int.tdiv (circle.widget.allocation.width - circle.priv.size) 2
        = (circle.widget.allocation.width - circle.priv.size) / 2 :=
      Int.tdiv_eq_ediv (by omega) (by omega)
    simp only [gint_div, e3]
    omega

/-- C10 at a drawable widget of size 96 and border width 4 allocated 104 x 104 at
(10, 20). -/
theorem C10_expose_translation_witness :
    ∃ e, gimp_circle_expose_event realLibM (fun _ _ _ => ⟨0, 0, 0⟩) 416
          { widget := { visible := true, realized := true, mapped := true,
                        allocation := ⟨10, 20, 104, 104⟩ },
            priv := { size := 96, border_width := 4,
                      background := GIMP_CIRCLE_BACKGROUND_HSV,
                      event_window := none } } = some e ∧
      e.translate_x = 14 ∧ e.translate_y = 24 := by
  obtain ⟨e, he, _, h1, _⟩ :=
    C10_expose_translation realLibM (fun _ _ _ => ⟨0, 0, 0⟩) 416
      { widget := { visible := true, realized := true, mapped := true,
                    allocation := ⟨10, 20, 104, 104⟩ },
        priv := { size := 96, border_width := 4,
                  background := GIMP_CIRCLE_BACKGROUND_HSV,
                  event_window := none } } rfl
  have h := h1 (by decide) (by decide) (by decide)
  exact ⟨e, he, h.1, h.2.1⟩

/-! ## Theorems: lifecycle of the event window -/

/-- A widget that is unrealized, unmapped and has no event window satisfies the invariant. -/
theorem lifecycle_inv_start (c : GimpCircle) (hr : c.widget.realized = false)
    (hm : c.widget.mapped = false) (hw : c.priv.event_window = none) :
    lifecycle_inv c := by
  simp [lifecycle_inv, event_window_present, event_window_shown, hr, hm, hw]

/-- Every allowed lifecycle callback preserves the invariant. -/
theorem lifecycle_inv_step (e : Lifecycle) (c : GimpCircle) (hinv : lifecycle_inv c)
    (hal : e.allowed c = true) : lifecycle_inv (e.run c) := by
  obtain ⟨⟨vis, re, ma, al⟩, ⟨sz, bw, bg, ew⟩⟩ := c
  cases e <;> cases ew <;> cases re <;> cases ma <;>
    simp_all [lifecycle_inv, Lifecycle.allowed, Lifecycle.run, event_window_present,
      event_window_shown, gimp_circle_realize, gimp_circle_map, gimp_circle_unmap,
      gimp_circle_unrealize, parent_realize, parent_map, parent_unmap, parent_unrealize,
      gdk_window_new]

/-- The invariant holds after every well-formed sequence of callbacks. -/
theorem lifecycle_inv_run (events : List Lifecycle) :
    ∀ c c1 : GimpCircle, lifecycle_inv c → run_lifecycle events c = some c1 →
      lifecycle_inv c1 := by
  induction events with
  | nil =>
    intro c c1 hinv hrun
    simp only [run_lifecycle, Option.some.injEq] at hrun
    exact hrun ▸ hinv
  | cons e es ih =>
    intro c c1 hinv hrun
    simp only [run_lifecycle] at hrun
    by_cases hal : e.allowed c = true
    · rw [if_pos hal] at hrun
      exact ih (e.run c) c1 (lifecycle_inv_step e c hinv hal) hrun
    · rw [if_neg hal] at hrun
      cases hrun

/-- C7: after every well-formed sequence of realize, map, unmap and unrealize
callbacks run from an unrealized, unmapped widget without event window, the event
window exists iff the widget is realized, and it is shown iff the widget is mapped
and realized. -/
theorem C7_lifecycle_invariant (c0 c : GimpCircle) (events : List Lifecycle)
    (hr : c0.widget.realized = false) (hm : c0.widget.mapped = false)
    (hw : c0.priv.event_window = none)
    (hrun : run_lifecycle events c0 = some c) :
    (event_window_present c = true ↔ c.widget.realized = true) ∧
    (event_window_shown c = true ↔ (c.widget.mapped = true ∧ c.widget.realized = true)) := by
  have h := lifecycle_inv_run events c0 c (lifecycle_inv_start c0 hr hm hw) hrun
  obtain ⟨h1, h2, _⟩ := h
  refine ⟨by rw [h1], ?_⟩
  rw [h2, Bool.and_eq_true]

/-- C7 on the sequence realize, map of a new widget: the event window exists and is shown. -/
theorem C7_lifecycle_invariant_witness :
    run_lifecycle [Lifecycle.realize, Lifecycle.map] gimp_circle_new
      = some (gimp_circle_map (gimp_circle_realize gimp_circle_new)) ∧
    event_window_present (gimp_circle_map (gimp_circle_realize gimp_circle_new)) = true ∧
    event_window_shown (gimp_circle_map (gimp_circle_realize gimp_circle_new)) = true := by
  have h := C7_lifecycle_invariant gimp_circle_new
    (gimp_circle_map (gimp_circle_realize gimp_circle_new))
    [Lifecycle.realize, Lifecycle.map] rfl rfl rfl rfl
  exact ⟨rfl, h.1.2 rfl, h.2.2 ⟨rfl, rfl⟩⟩

/-! ## Theorems: the geometry helper -/

/-- The model of `atan2` is the usual one: away from the origin, `atan2 y x` is
the angle in `(-π, π]` whose cosine and sine are `x` and `y` over the length of
`(x, y)`. -/
theorem realLibM_atan2_spec (y x : ℝ) (h : x ≠ 0 ∨ y ≠ 0) :
    -Real.pi < realLibM.atan2 y x ∧ realLibM.atan2 y x ≤ Real.pi ∧
    Real.cos (realLibM.atan2 y x) = x / Real.sqrt (x * x + y * y) ∧
    Real.sin (realLibM.atan2 y x) = y / Real.sqrt (x * x + y * y) := by
  have hz : (⟨x, y⟩ : ℂ) ≠ 0 := by
    intro hz
    have h1 := congrArg Complex.re hz
    have h2 := congrArg Complex.im hz
    simp only [Complex.zero_re, Complex.zero_im] at h1 h2
    rcases h with h | h
    · exact h h1
    · exact h h2
  have habs : Complex.abs ⟨x, y⟩ = Real.sqrt (x * x + y * y) := by
    rw [Complex.abs_apply, Complex.normSq_mk]
  refine ⟨Complex.neg_pi_lt_arg _, Complex.arg_le_pi _, ?_, ?_⟩
  · simp only [realLibM]
    rw [Complex.cos_arg hz, habs]
  · simp only [realLibM]
    rw [Complex.sin_arg, habs]

/-- C2: for all real arguments, the angle returned by `get_angle_and_distance` is
atan2 (center_y - y, x - center_x) when that is non-negative and that plus 2 pi
when it is negative, and it lies in [0, 2 pi). -/
theorem C2_angle_normalised (center_x center_y radius x y : ℝ) :
    (0 ≤ realLibM.atan2 (center_y - y) (x - center_x) →
      (get_angle_and_distance realLibM center_x center_y radius x y).1
        = realLibM.atan2 (center_y - y) (x - center_x)) ∧
    (realLibM.atan2 (center_y - y) (x - center_x) < 0 →
      (get_angle_and_distance realLibM center_x center_y radius x y).1
        = realLibM.atan2 (center_y - y) (x - center_x) + 2 * Real.pi) ∧
    0 ≤ (get_angle_and_distance realLibM center_x center_y radius x y).1 ∧
    (get_angle_and_distance realLibM center_x center_y radius x y).1 < 2 * Real.pi := by
  have hlo : -Real.pi < realLibM.atan2 (center_y - y) (x - center_x) :=
    Complex.neg_pi_lt_arg _
  have hhi : realLibM.atan2 (center_y - y) (x - center_x) ≤ Real.pi :=
    Complex.arg_le_pi _
  have hpi : 0 < Real.pi := Real.pi_pos
  have hG : realLibM.G_PI = Real.pi := rfl
  simp only [get_angle_and_distance, hG]
  by_cases hneg : realLibM.atan2 (center_y - y) (x - center_x) < 0
  · rw [if_pos hneg]
    refine ⟨fun h => absurd hneg (not_lt.mpr h), fun _ => rfl, ?_, ?_⟩ <;> linarith
  · rw [if_neg hneg]
    have h0 := not_lt.mp hneg
    refine ⟨fun _ => rfl, fun h => absurd h hneg, h0, ?_⟩
    linarith

/-- C2 at the point one unit to the right of the centre: the angle is atan2 (0, 1). -/
theorem C2_angle_normalised_witness :
    (get_angle_and_distance realLibM 0 0 1 1 0).1 = realLibM.atan2 (0 - 0) (1 - 0) :=
  (C2_angle_normalised 0 0 1 1 0).1
    (Complex.arg_nonneg_iff.mpr (by simp))

/-- For radius > 0 the stored distance is the Euclidean distance over the radius. -/
theorem distance_eq_euclidean_div (center_x center_y radius x y : ℝ) (hr : 0 < radius) :
    (get_angle_and_distance realLibM center_x center_y radius x y).2
      = euclidean_distance center_x center_y x y / radius := by
  have hnum : 0 ≤ SQR (x - center_x) + SQR (y - center_y) := by
    simp only [SQR]; nlinarith [mul_self_nonneg (x - center_x), mul_self_nonneg (y - center_y)]
  have hs : realLibM.sqrt = Real.sqrt := rfl
  simp only [get_angle_and_distance, hs]
  rw [Real.sqrt_div hnum]
  have h1 : Real.sqrt (SQR radius) = radius := by
    simp only [SQR]; exact Real.sqrt_mul_self hr.le
  have h2 : SQR (x - center_x) + SQR (y - center_y)
      = (x - center_x) ^ 2 + (y - center_y) ^ 2 := by
    simp only [SQR]; ring
  rw [h1, h2, euclidean_distance]

/-- C3: for radius > 0 the distance stored by `get_angle_and_distance` is the
Euclidean distance from (x, y) to the centre divided by radius; it is 1 exactly on
the circle of that radius, greater than 1 outside it and less than 1 inside. -/
theorem C3_distance_normalised (center_x center_y radius x y : ℝ) (hr : 0 < radius) :
    (get_angle_and_distance realLibM center_x center_y radius x y).2
      = euclidean_distance center_x center_y x y / radius ∧
    ((get_angle_and_distance realLibM center_x center_y radius x y).2 = 1
      ↔ euclidean_distance center_x center_y x y = radius) ∧
    (1 < (get_angle_and_distance realLibM center_x center_y radius x y).2
      ↔ radius < euclidean_distance center_x center_y x y) ∧
    ((get_angle_and_distance realLibM center_x center_y radius x y).2 < 1
      ↔ euclidean_distance center_x center_y x y < radius) := by
  have hd := distance_eq_euclidean_div center_x center_y radius x y hr
  rw [hd]
  exact ⟨rfl, div_eq_one_iff_eq hr.ne.symm, one_lt_div hr, div_lt_one hr⟩

/-- C3 at the point (3, 4) seen from the origin with radius 5: it lies on the circle. -/
theorem C3_distance_normalised_witness :
    (get_angle_and_distance realLibM 0 0 5 3 4).2 = euclidean_distance 0 0 3 4 / 5 :=
  (C3_distance_normalised 0 0 5 3 4 (by norm_num)).1

/-! ## Theorems: the HSV colour function -/

/-- C4: the value `gimp_circle_background_hsv` passes to the colour conversion is
v(d) = 1 - sqrt(d)/4; v(0) = 1, v(1) = 0.75, v is strictly decreasing on [0, 1]
and lies in [0.75, 1] there. -/
theorem C4_hsv_value (angle : ℝ) :
    (∀ (β : Type) (gimp_hsv_to_rgb4 : ℝ → ℝ → ℝ → β) (d : ℝ),
      gimp_circle_background_hsv realLibM gimp_hsv_to_rgb4 angle d
        = gimp_hsv_to_rgb4 (angle / (2 * Real.pi)) d (hsv_value angle d)) ∧
    (∀ d : ℝ, hsv_value angle d = 1 - Real.sqrt d / 4) ∧
    hsv_value angle 0 = 1 ∧
    hsv_value angle 1 = 0.75 ∧
    StrictAntiOn (hsv_value angle) (Set.Icc 0 1) ∧
    (∀ d ∈ Set.Icc (0 : ℝ) 1, 0.75 ≤ hsv_value angle d ∧ hsv_value angle d ≤ 1) := by
  have hv : ∀ d : ℝ, hsv_value angle d = 1 - Real.sqrt d / 4 := fun d => rfl
  refine ⟨fun β conv d => rfl, hv, ?_, ?_, ?_, ?_⟩
  · rw [hv, Real.sqrt_zero]; norm_num
  · rw [hv, Real.sqrt_one]; norm_num
  · intro a ha b _ hab
    rw [hv, hv]
    have := Real.sqrt_lt_sqrt ha.1 hab
    linarith
  · intro d hd
    rw [hv]
    have h0 : 0 ≤ Real.sqrt d := Real.sqrt_nonneg d
    have h1 : Real.sqrt d ≤ 1 := Real.sqrt_le_one.mpr hd.2
    constructor <;> norm_num <;> linarith

/-- C4 at the distance 1/4: the value lies between 0.75 and 1. -/
theorem C4_hsv_value_witness :
    0.75 ≤ hsv_value 0 (1 / 4) ∧ hsv_value 0 (1 / 4) ≤ 1 :=
  (C4_hsv_value 0).2.2.2.2.2 (1 / 4) ⟨by norm_num, by norm_num⟩

/-! ## Theorems: the pixel loop -/

/-- The inner loop entered at `x` appends the writes of the pixels `x, x+1, ...`
of the row up to the one before `size`. -/
theorem pixel_loop_x_eq {α : Type} [LinearOrderedField α] (m : LibM α)
    (gimp_hsv_to_rgb4 : α → α → α → RGB) (size stride : Int)
    (background : GimpCircleBackground) (y : Int) :
    ∀ (n : Nat) (x : Int) (data : List PixelWrite), (size - x).toNat = n →
      pixel_loop_x m gimp_hsv_to_rgb4 size stride background y x data
        = data ++ (List.range n).map
            (fun i : Nat => pixel_write m gimp_hsv_to_rgb4 size stride background (x + i) y) := by
  intro n
  induction n with
  | zero =>
    intro x data h
    rw [pixel_loop_x, if_neg (by omega)]
    simp
  | succ n ih =>
    intro x data h
    rw [pixel_loop_x, if_pos (by omega), ih (x + 1) _ (by omega), List.range_succ_eq_map]
    simp only [List.map_cons, List.map_map, List.append_assoc, List.singleton_append,
      Nat.cast_zero, add_zero]
    congr 2
    apply List.map_congr_left
    intro i _
    simp only [Function.comp, Nat.succ_eq_add_one, Nat.cast_add, Nat.cast_one]
    congr 1
    ring

/-- The outer loop entered at `y` appends the rows `y, y+1, ...` up to the one
before `size`. -/
theorem pixel_loop_y_eq {α : Type} [LinearOrderedField α] (m : LibM α)
    (gimp_hsv_to_rgb4 : α → α → α → RGB) (size stride : Int)
    (background : GimpCircleBackground) :
    ∀ (n : Nat) (y : Int) (data : List PixelWrite), (size - y).toNat = n →
      pixel_loop_y m gimp_hsv_to_rgb4 size stride background y data
        = data ++ (List.range n).flatMap (fun j : Nat =>
            (List.range size.toNat).map (fun i : Nat =>
              pixel_write m gimp_hsv_to_rgb4 size stride background (i : Int) (y + j))) := by
  intro n
  induction n with
  | zero =>
    intro y data h
    rw [pixel_loop_y, if_neg (by omega)]
    simp
  | succ n ih =>
    intro y data h
    rw [pixel_loop_y, if_pos (by omega), ih (y + 1) _ (by omega),
      pixel_loop_x_eq m gimp_hsv_to_rgb4 size stride background y size.toNat 0 data (by omega),
      List.range_succ_eq_map]
    simp only [List.flatMap_cons, List.append_assoc, Nat.cast_zero, add_zero, zero_add]
    congr 2
    rw [List.flatMap_map]
    congr 1
    funext j
    apply List.map_congr_left
    intro i _
    simp only [Nat.succ_eq_add_one, Nat.cast_add, Nat.cast_one]
    congr 1
    ring

/-- The two nested loops write every pixel of the `size × size` buffer exactly
once, in row-major order. -/
theorem pixel_loop_eq {α : Type} [LinearOrderedField α] (m : LibM α)
    (gimp_hsv_to_rgb4 : α → α → α → RGB) (size stride : Int)
    (background : GimpCircleBackground) :
    pixel_loop_y m gimp_hsv_to_rgb4 size stride background 0 []
      = row_major size.toNat (pixel_write m gimp_hsv_to_rgb4 size stride background) := by
  rw [pixel_loop_y_eq m gimp_hsv_to_rgb4 size stride background size.toNat 0 [] (by omega)]
  simp only [List.nil_append, zero_add, row_major]

/-- Membership in a row-major enumeration. -/
theorem mem_row_major {β : Type} (n : Nat) (f : Int → Int → β) (b : β) :
    b ∈ row_major n f ↔ ∃ x y : Int, 0 ≤ x ∧ x < n ∧ 0 ≤ y ∧ y < n ∧ b = f x y := by
  simp only [row_major, List.mem_flatMap, List.mem_map, List.mem_range]
  constructor
  · rintro ⟨j, hj, i, hi, rfl⟩
    exact ⟨i, j, by omega, by omega, by omega, by omega, rfl⟩
  · rintro ⟨x, y, hx0, hx, hy0, hy, rfl⟩
    refine ⟨y.toNat, by omega, x.toNat, by omega, ?_⟩
    rw [Int.toNat_of_nonneg hx0, Int.toNat_of_nonneg hy0]

/-- A row-major enumeration of an `n × n` grid has `n * n` entries. -/
theorem length_row_major {β : Type} (n : Nat) (f : Int → Int → β) :
    (row_major n f).length = n * n := by
  have h : (List.length ∘ fun j : Nat => List.map (fun i : Nat => f (i : Int) (j : Int))
      (List.range n)) = fun _ => n := by
    funext j
    simp only [Function.comp, List.length_map, List.length_range]
  rw [row_major, List.length_flatMap, h]
  simp

/-- Mapping over a row-major enumeration. -/
theorem map_row_major {β γ : Type} (n : Nat) (f : Int → Int → β) (g : β → γ) :
    (row_major n f).map g = row_major n (fun x y => g (f x y)) := by
  simp only [row_major, List.map_flatMap, List.map_map]
  rfl

/-- A row-major enumeration has no repetition when `f` is injective on the grid. -/
theorem nodup_row_major {β : Type} (n : Nat) (f : Int → Int → β)
    (hinj : ∀ x y x1 y1 : Int, 0 ≤ x → x < n → 0 ≤ y → y < n → 0 ≤ x1 → x1 < n →
      0 ≤ y1 → y1 < n → f x y = f x1 y1 → x = x1 ∧ y = y1) :
    (row_major n f).Nodup := by
  rw [row_major, List.nodup_flatMap]
  constructor
  · intro j hj
    rw [List.mem_range] at hj
    apply List.Nodup.map_on _ (List.nodup_range n)
    intro a ha b hb hab
    rw [List.mem_range] at ha hb
    have := (hinj a j b j (by omega) (by omega) (by omega) (by omega) (by omega) (by omega)
      (by omega) (by omega) hab).1
    omega
  · apply List.Pairwise.imp_of_mem _ (List.nodup_range n)
    intro a b ha hb hab
    rw [List.mem_range] at ha hb
    simp only [Function.onFun]
    rw [List.disjoint_left]
    intro w hw1 hw2
    rw [List.mem_map] at hw1 hw2
    obtain ⟨i, hi, rfl⟩ := hw1
    obtain ⟨i1, hi1, heq⟩ := hw2
    rw [List.mem_range] at hi hi1
    have := (hinj i1 b i a (by omega) (by omega) (by omega) (by omega) (by omega) (by omega)
      (by omega) (by omega) heq).2
    exact hab (by omega)

/-- Distinct pixels of the buffer have distinct offsets when a row of pixels fits
in the stride. -/
theorem offset_injective (size stride x y x1 y1 : Int) (hx : 0 ≤ x) (hxs : x < size)
    (hx1 : 0 ≤ x1) (hx1s : x1 < size) (hs : 4 * size ≤ stride)
    (h : y * stride + x * 4 = y1 * stride + x1 * 4) : x = x1 ∧ y = y1 := by
  have key : y = y1 := by
    rcases lt_trichotomy y y1 with hlt | heq | hgt
    · exfalso
      have : (y1 - y) * stride ≥ 1 * stride := by
        apply mul_le_mul_of_nonneg_right <;> omega
      nlinarith
    · exact heq
    · exfalso
      have : (y - y1) * stride ≥ 1 * stride := by
        apply mul_le_mul_of_nonneg_right <;> omega
      nlinarith
  subst key
  exact ⟨by omega, rfl⟩

/-- In HSV mode the body of the pixel loop performs the write the specification
prescribes. -/
theorem pixel_write_hsv (gimp_hsv_to_rgb4 : ℝ → ℝ → ℝ → RGB) (size stride x y : Int) :
    pixel_write realLibM gimp_hsv_to_rgb4 size stride GIMP_CIRCLE_BACKGROUND_HSV x y
      = hsv_wheel_pixel gimp_hsv_to_rgb4 size stride x y := by
  simp only [pixel_write, pixel_colour, if_true, gimp_circle_background_hsv, hsv_wheel_pixel]
  rfl

/-- C9: in HSV mode the nested loop writes the size * size pixels (x, y),
0 <= x, y < size, once each in row-major order, at offset y * stride + x * 4,
with alpha 255 and the RGB converted from hue = angle / (2 pi),
saturation = distance, value = 1 - sqrt(distance) / 4 computed about the real
centre (size/2, size/2) with radius size/2; every write of the log is the write
of such a pixel, and when a row fits in the stride each pixel offset is written
exactly once. -/
theorem C9_hsv_wheel_buffer (gimp_hsv_to_rgb4 : ℝ → ℝ → ℝ → RGB) (size stride : Int) :
    pixel_loop_y realLibM gimp_hsv_to_rgb4 size stride GIMP_CIRCLE_BACKGROUND_HSV 0 []
      = row_major size.toNat (hsv_wheel_pixel gimp_hsv_to_rgb4 size stride) ∧
    (pixel_loop_y realLibM gimp_hsv_to_rgb4 size stride GIMP_CIRCLE_BACKGROUND_HSV 0 []).length
      = size.toNat * size.toNat ∧
    (∀ x y : Int, 0 ≤ x → x < size → 0 ≤ y → y < size →
      hsv_wheel_pixel gimp_hsv_to_rgb4 size stride x y
        ∈ pixel_loop_y realLibM gimp_hsv_to_rgb4 size stride GIMP_CIRCLE_BACKGROUND_HSV 0 [] ∧
      (hsv_wheel_pixel gimp_hsv_to_rgb4 size stride x y).offset = y * stride + x * 4 ∧
      (hsv_wheel_pixel gimp_hsv_to_rgb4 size stride x y).a = 255 ∧
      (4 * size ≤ stride →
        ((pixel_loop_y realLibM gimp_hsv_to_rgb4 size stride
            GIMP_CIRCLE_BACKGROUND_HSV 0 []).map PixelWrite.offset).count
          (y * stride + x * 4) = 1)) ∧
    (∀ w ∈ pixel_loop_y realLibM gimp_hsv_to_rgb4 size stride GIMP_CIRCLE_BACKGROUND_HSV 0 [],
      ∃ x y : Int, 0 ≤ x ∧ x < size ∧ 0 ≤ y ∧ y < size ∧
        w = hsv_wheel_pixel gimp_hsv_to_rgb4 size stride x y) := by
  have hW : pixel_loop_y realLibM gimp_hsv_to_rgb4 size stride GIMP_CIRCLE_BACKGROUND_HSV 0 []
      = row_major size.toNat (hsv_wheel_pixel gimp_hsv_to_rgb4 size stride) := by
    have hbody : pixel_write realLibM gimp_hsv_to_rgb4 size stride GIMP_CIRCLE_BACKGROUND_HSV
        = hsv_wheel_pixel gimp_hsv_to_rgb4 size stride := by
      funext x y
      exact pixel_write_hsv gimp_hsv_to_rgb4 size stride x y
    rw [pixel_loop_eq, hbody]
  rw [hW]
  refine ⟨rfl, length_row_major _ _, ?_, ?_⟩
  · intro x y hx0 hx hy0 hy
    have hmem : hsv_wheel_pixel gimp_hsv_to_rgb4 size stride x y
        ∈ row_major size.toNat (hsv_wheel_pixel gimp_hsv_to_rgb4 size stride) :=
      (mem_row_major _ _ _).mpr ⟨x, y, hx0, by omega, hy0, by omega, rfl⟩
    refine ⟨hmem, rfl, rfl, ?_⟩
    intro hstride
    apply List.count_eq_one_of_mem
    · rw [map_row_major]
      apply nodup_row_major
      intro a b a1 b1 ha0 ha hb0 hb ha10 ha1 hb10 hb1 heq
      exact offset_injective size stride a b a1 b1 ha0 (by omega) ha10 (by omega) hstride heq
    · exact List.mem_map.mpr ⟨_, hmem, rfl⟩
  · intro w hw
    obtain ⟨x, y, hx0, hx, hy0, hy, rfl⟩ := (mem_row_major _ _ _).mp hw
    exact ⟨x, y, hx0, by omega, hy0, by omega, rfl⟩

/-- C9 on a 2 x 2 buffer with stride 8: the pixel (1, 1) is written once, at offset 12. -/
theorem C9_hsv_wheel_buffer_witness :
    ((pixel_loop_y realLibM (fun _ _ _ => ⟨0, 0, 0⟩) 2 8
        GIMP_CIRCLE_BACKGROUND_HSV 0 []).map PixelWrite.offset).count (1 * 8 + 1 * 4) = 1 :=
  ((C9_hsv_wheel_buffer (fun _ _ _ => ⟨0, 0, 0⟩) 2 8).2.2.1 1 1
    (by decide) (by decide) (by decide) (by decide)).2.2.2 (by decide)

/-! ## Theorems: what the raster branch paints -/

/-- For every background other than `Plain` the calls made are those of the
raster branch. -/
theorem draw_background_raster {α : Type} [LinearOrderedField α] (m : LibM α)
    (gimp_hsv_to_rgb4 : α → α → α → RGB) (stride size : Int)
    (background : GimpCircleBackground) (hbg : background ≠ GIMP_CIRCLE_BACKGROUND_PLAIN) :
    gimp_circle_draw_background m gimp_hsv_to_rgb4 stride size background
      = [ CairoOp.save,
          CairoOp.set_source_surface
            (wheel_surface m gimp_hsv_to_rgb4 stride size background) 0 0,
          CairoOp.arc ((size : α) / 2) ((size : α) / 2) ((size : α) / 2) 0 (2 * m.G_PI),
          CairoOp.clip,
          CairoOp.paint,
          CairoOp.restore ] := by
  simp only [gimp_circle_draw_background, if_neg hbg, wheel_surface, List.cons_append,
    List.nil_append]

/-- The raster branch performs one drawing operation: a `paint` of the filled
surface, placed at the origin, through the circular clip. -/
theorem cairo_drawn_raster {α : Type} [LinearOrderedField α] (m : LibM α)
    (gimp_hsv_to_rgb4 : α → α → α → RGB) (stride size : Int)
    (background : GimpCircleBackground) (hbg : background ≠ GIMP_CIRCLE_BACKGROUND_PLAIN) :
    cairo_drawn (gimp_circle_draw_background m gimp_hsv_to_rgb4 stride size background)
      = [ Drawn.paint
            (Source.surface (wheel_surface m gimp_hsv_to_rgb4 stride size background) 0 0)
            [clip_circle m size] ] := by
  rw [draw_background_raster m gimp_hsv_to_rgb4 stride size background hbg]
  simp only [cairo_drawn, List.foldl_cons, List.foldl_nil, Cairo.exec, Cairo.create,
    List.nil_append, clip_circle]

/-- A pixel of the filled surface inside the buffer holds the write of a buffer
pixel with the same offset. -/
theorem wheel_surface_pixel {α : Type} [LinearOrderedField α] (m : LibM α)
    (gimp_hsv_to_rgb4 : α → α → α → RGB) (stride size : Int)
    (background : GimpCircleBackground) (x y : Int)
    (hx0 : 0 ≤ x) (hx : x < size) (hy0 : 0 ≤ y) (hy : y < size) :
    ∃ x1 y1 : Int, 0 ≤ x1 ∧ x1 < size ∧ 0 ≤ y1 ∧ y1 < size ∧
      y1 * stride + x1 * 4 = y * stride + x * 4 ∧
      (wheel_surface m gimp_hsv_to_rgb4 stride size background).pixel x y
        = pixel_write m gimp_hsv_to_rgb4 size stride background x1 y1 := by
  have hin : 0 ≤ x ∧ x < size ∧ 0 ≤ y ∧ y < size := ⟨hx0, hx, hy0, hy⟩
  simp only [ImageSurface.pixel, wheel_surface, if_pos hin, pixel_loop_eq]
  cases hf : (row_major size.toNat
      (pixel_write m gimp_hsv_to_rgb4 size stride background)).reverse.find?
      (fun w => decide (w.offset = y * stride + x * 4)) with
  | none =>
    exfalso
    rw [List.find?_eq_none] at hf
    have hmem : pixel_write m gimp_hsv_to_rgb4 size stride background x y
        ∈ (row_major size.toNat
            (pixel_write m gimp_hsv_to_rgb4 size stride background)).reverse :=
      List.mem_reverse.mpr
        ((mem_row_major _ _ _).mpr ⟨x, y, hx0, by omega, hy0, by omega, rfl⟩)
    exact hf _ hmem (by simp [pixel_write])
  | some w =>
    have hmem := List.mem_reverse.mp (List.mem_of_find?_eq_some hf)
    have hoff := List.find?_some hf
    obtain ⟨x1, y1, hx10, hx1, hy10, hy1, rfl⟩ := (mem_row_major _ _ _).mp hmem
    refine ⟨x1, y1, hx10, by omega, hy10, by omega, ?_, rfl⟩
    simpa [pixel_write] using hoff

/-- Every pixel of the filled surface inside the buffer is opaque. -/
theorem wheel_surface_pixel_alpha {α : Type} [LinearOrderedField α] (m : LibM α)
    (gimp_hsv_to_rgb4 : α → α → α → RGB) (stride size : Int)
    (background : GimpCircleBackground) (x y : Int)
    (hx0 : 0 ≤ x) (hx : x < size) (hy0 : 0 ≤ y) (hy : y < size) :
    ((wheel_surface m gimp_hsv_to_rgb4 stride size background).pixel x y).a = 255 := by
  obtain ⟨x1, y1, _, _, _, _, _, h⟩ :=
    wheel_surface_pixel m gimp_hsv_to_rgb4 stride size background x y hx0 hx hy0 hy
  rw [h]
  rfl

/-- Outside the buffer the filled surface is transparent. -/
theorem wheel_surface_pixel_outside {α : Type} [LinearOrderedField α] (m : LibM α)
    (gimp_hsv_to_rgb4 : α → α → α → RGB) (stride size : Int)
    (background : GimpCircleBackground) (x y : Int)
    (hout : ¬ (0 ≤ x ∧ x < size ∧ 0 ≤ y ∧ y < size)) :
    ((wheel_surface m gimp_hsv_to_rgb4 stride size background).pixel x y).a = 0 := by
  simp only [ImageSurface.pixel, wheel_surface, if_neg hout]

/-- In the raster branch a target pixel receives colour exactly when it is a
pixel of the buffer whose unit square meets the clip circle. -/
theorem raster_receives_colour_iff {α : Type} [LinearOrderedField α] (m : LibM α)
    (gimp_hsv_to_rgb4 : α → α → α → RGB) (stride size : Int)
    (background : GimpCircleBackground) (hbg : background ≠ GIMP_CIRCLE_BACKGROUND_PLAIN)
    (x y : Int) :
    receives_colour (gimp_circle_draw_background m gimp_hsv_to_rgb4 stride size background) x y
      ↔ (0 ≤ x ∧ x < size ∧ 0 ≤ y ∧ y < size) ∧
        ∃ p : α × α, in_pixel x y p ∧ (clip_circle m size).contains p := by
  simp only [receives_colour, cairo_drawn_raster m gimp_hsv_to_rgb4 stride size background hbg,
    List.mem_singleton, exists_eq_left, Drawn.touches, in_clip, forall_eq, Source.supplies]
  constructor
  · rintro ⟨hp, colour, i, j, hi, hj, hc, ha⟩
    have hi0 : i = 0 := by exact_mod_cast hi.symm
    have hj0 : j = 0 := by exact_mod_cast hj.symm
    subst hi0 hj0
    simp only [sub_zero] at hc
    refine ⟨?_, hp⟩
    by_contra hout
    exact ha (hc ▸ wheel_surface_pixel_outside m gimp_hsv_to_rgb4 stride size background x y hout)
  · rintro ⟨⟨hx0, hx, hy0, hy⟩, hp⟩
    refine ⟨hp, _, 0, 0, by simp, by simp, rfl, ?_⟩
    simp only [sub_zero]
    rw [wheel_surface_pixel_alpha m gimp_hsv_to_rgb4 stride size background x y hx0 hx hy0 hy]
    decide

/-- For a background that is not `HsvWheel` the body of the pixel loop writes
opaque black. -/
theorem pixel_write_other {α : Type} [LinearOrderedField α] (m : LibM α)
    (gimp_hsv_to_rgb4 : α → α → α → RGB) (size stride : Int)
    (background : GimpCircleBackground) (hbg : background ≠ GIMP_CIRCLE_BACKGROUND_HSV)
    (x y : Int) :
    pixel_write m gimp_hsv_to_rgb4 size stride background x y
      = ⟨y * stride + x * 4, 0, 0, 0, 255⟩ := by
  simp only [pixel_write, pixel_colour, if_neg hbg]

/-- For a background that is not `HsvWheel` every pixel of the filled surface
inside the buffer is opaque black. -/
theorem wheel_surface_pixel_other {α : Type} [LinearOrderedField α] (m : LibM α)
    (gimp_hsv_to_rgb4 : α → α → α → RGB) (stride size : Int)
    (background : GimpCircleBackground) (hbg : background ≠ GIMP_CIRCLE_BACKGROUND_HSV)
    (x y : Int) (hx0 : 0 ≤ x) (hx : x < size) (hy0 : 0 ≤ y) (hy : y < size) :
    (wheel_surface m gimp_hsv_to_rgb4 stride size background).pixel x y
      = ⟨y * stride + x * 4, 0, 0, 0, 255⟩ := by
  obtain ⟨x1, y1, _, _, _, _, hoff, h⟩ :=
    wheel_surface_pixel m gimp_hsv_to_rgb4 stride size background x y hx0 hx hy0 hy
  rw [h, pixel_write_other m gimp_hsv_to_rgb4 size stride background hbg, hoff]

/-- C5 (amended): for a background value that is neither `Plain` nor `HsvWheel`
the raster branch runs with an all-black buffer: every buffer pixel is written
(0, 0, 0) with alpha 255, the buffer is painted through the circular clip of
radius size/2, a target pixel receives colour exactly when it is a buffer pixel
whose unit square meets the clip circle, and a buffer pixel whose unit square
lies inside the clip circle is filled with opaque black. -/
theorem C5_other_background_paints_black {α : Type} [LinearOrderedField α] (m : LibM α)
    (gimp_hsv_to_rgb4 : α → α → α → RGB) (stride size : Int)
    (background : GimpCircleBackground)
    (hplain : background ≠ GIMP_CIRCLE_BACKGROUND_PLAIN)
    (hhsv : background ≠ GIMP_CIRCLE_BACKGROUND_HSV) :
    gimp_circle_draw_background m gimp_hsv_to_rgb4 stride size background
      = [ CairoOp.save,
          CairoOp.set_source_surface
            (wheel_surface m gimp_hsv_to_rgb4 stride size background) 0 0,
          CairoOp.arc ((size : α) / 2) ((size : α) / 2) ((size : α) / 2) 0 (2 * m.G_PI),
          CairoOp.clip,
          CairoOp.paint,
          CairoOp.restore ] ∧
    (wheel_surface m gimp_hsv_to_rgb4 stride size background).data
      = row_major size.toNat (fun x y => ⟨y * stride + x * 4, 0, 0, 0, 255⟩) ∧
    (∀ x y : Int,
      receives_colour
          (gimp_circle_draw_background m gimp_hsv_to_rgb4 stride size background) x y
        ↔ (0 ≤ x ∧ x < size ∧ 0 ≤ y ∧ y < size) ∧
          ∃ p : α × α, in_pixel x y p ∧ (clip_circle m size).contains p) ∧
    (∀ x y : Int, 0 ≤ x → x < size → 0 ≤ y → y < size →
      (∀ p : α × α, in_pixel x y p → (clip_circle m size).contains p) →
      ∃ d ∈ cairo_drawn
          (gimp_circle_draw_background m gimp_hsv_to_rgb4 stride size background),
        d.fills x y ⟨y * stride + x * 4, 0, 0, 0, 255⟩) := by
  refine ⟨draw_background_raster m gimp_hsv_to_rgb4 stride size background hplain, ?_,
    raster_receives_colour_iff m gimp_hsv_to_rgb4 stride size background hplain, ?_⟩
  · have hbody : pixel_write m gimp_hsv_to_rgb4 size stride background
        = fun x y => ⟨y * stride + x * 4, 0, 0, 0, 255⟩ := by
      funext x y
      exact pixel_write_other m gimp_hsv_to_rgb4 size stride background hhsv x y
    simp only [wheel_surface, pixel_loop_eq, hbody]
  · intro x y hx0 hx hy0 hy hin
    rw [cairo_drawn_raster m gimp_hsv_to_rgb4 stride size background hplain]
    refine ⟨_, List.mem_singleton.mpr rfl, ?_⟩
    simp only [Drawn.fills, in_clip, List.mem_singleton, forall_eq, Source.supplies]
    refine ⟨hin, 0, 0, by simp, by simp, ?_, by decide⟩
    simp only [sub_zero]
    exact (wheel_surface_pixel_other m gimp_hsv_to_rgb4 stride size background hhsv
      x y hx0 hx hy0 hy).symm

/-- The unit square of the pixel (16, 16) lies inside the clip circle of a
32 x 32 background. -/
theorem centre_pixel_inside_clip_32 (p : ℝ × ℝ) (hp : in_pixel 16 16 p) :
    (clip_circle realLibM 32).contains p := by
  obtain ⟨h1, h2, h3, h4⟩ := hp
  simp only [Int.cast_ofNat] at h1 h2 h3 h4
  simp only [Arc.contains, clip_circle, SQR, Int.cast_ofNat]
  nlinarith

/-- C5 at the background value 2, size 32 and stride 128: the pixel (16, 16) is
filled with opaque black. -/
theorem C5_other_background_paints_black_witness :
    ∃ d ∈ cairo_drawn
        (gimp_circle_draw_background realLibM (fun _ _ _ => ⟨255, 255, 255⟩) 128 32 2),
      d.fills 16 16 ⟨16 * 128 + 16 * 4, 0, 0, 0, 255⟩ :=
  (C5_other_background_paints_black realLibM (fun _ _ _ => ⟨255, 255, 255⟩) 128 32 2
    (by decide) (by decide)).2.2.2 16 16 (by decide) (by decide) (by decide) (by decide)
    centre_pixel_inside_clip_32

/-- C5 fails as stated: with the background value 2 (neither `Plain` nor
`HsvWheel`), size 32 and stride 128, the call does paint: the target pixel
(16, 16) receives colour. -/
theorem C5_counterexample :
    (2 : GimpCircleBackground) ≠ GIMP_CIRCLE_BACKGROUND_PLAIN ∧
    (2 : GimpCircleBackground) ≠ GIMP_CIRCLE_BACKGROUND_HSV ∧
    receives_colour
      (gimp_circle_draw_background realLibM (fun _ _ _ => ⟨255, 255, 255⟩) 128 32 2) 16 16 ∧
    ¬ paints_nothing
      (gimp_circle_draw_background realLibM (fun _ _ _ => ⟨255, 255, 255⟩) 128 32 2) := by
  have hrec : receives_colour
      (gimp_circle_draw_background realLibM (fun _ _ _ => ⟨255, 255, 255⟩) 128 32 2) 16 16 := by
    rw [raster_receives_colour_iff realLibM _ 128 32 2 (by decide)]
    refine ⟨by decide, ((16 : ℝ), (16 : ℝ)), ?_, ?_⟩
    · simp only [in_pixel, Int.cast_ofNat]; norm_num
    · apply centre_pixel_inside_clip_32
      simp only [in_pixel, Int.cast_ofNat]; norm_num
  exact ⟨by decide, by decide, hrec, fun h => h 16 16 hrec⟩

/-! ## Theorems: the disc clip in HSV mode -/

/-- A computed distance greater than 1 puts the point (x, y) outside the closed
disc of radius size/2 about the centre. -/
theorem wheel_distance_gt_one (size x y : Int) (hsize : 0 < size)
    (hd : 1 < wheel_distance size x y) :
    SQR ((size : ℝ) / 2) < SQR ((x : ℝ) - (size : ℝ) / 2) + SQR ((y : ℝ) - (size : ℝ) / 2) := by
  have hr : (0 : ℝ) < (size : ℝ) / 2 := by
    have : (0 : ℝ) < (size : ℝ) := by exact_mod_cast hsize
    linarith
  rw [wheel_distance, distance_eq_euclidean_div _ _ _ _ _ hr, one_lt_div hr,
    euclidean_distance, Real.lt_sqrt hr.le] at hd
  simp only [SQR]
  nlinarith

/-- One coordinate of a pixel: either the left end `a` or the right end `a + 1`
of `[a, a + 1]` is its point nearest to `s / 2`, or `s / 2` is its midpoint. -/
theorem coord_bound (a : Int) (s : Int) (t : ℝ) (h1 : (a : ℝ) ≤ t) (h2 : t ≤ (a : ℝ) + 1) :
    (s ≤ 2 * a ∧ ((a : ℝ) - (s : ℝ) / 2) * ((a : ℝ) - (s : ℝ) / 2) ≤ (t - (s : ℝ) / 2) * (t - (s : ℝ) / 2)) ∨
    (2 * a + 2 ≤ s ∧ ((a : ℝ) + 1 - (s : ℝ) / 2) * ((a : ℝ) + 1 - (s : ℝ) / 2) ≤ (t - (s : ℝ) / 2) * (t - (s : ℝ) / 2)) ∨
    (s = 2 * a + 1) := by
  rcases le_or_lt s (2 * a) with h | h
  · left
    refine ⟨h, ?_⟩
    have : (s : ℝ) ≤ 2 * (a : ℝ) := by exact_mod_cast h
    nlinarith
  · rcases le_or_lt (2 * a + 2) s with h3 | h3
    · right; left
      refine ⟨h3, ?_⟩
      have : 2 * (a : ℝ) + 2 ≤ (s : ℝ) := by exact_mod_cast h3
      nlinarith
    · right; right; omega

/-- A point at height `t` above the centre within `s / 2 - 1`, half a unit
beside it, is inside the circle of radius `s / 2`. -/
theorem mid_contra (s t : ℝ) (h1 : -(s / 2 - 1) ≤ t) (h2 : t ≤ s / 2 - 1)
    (h : (s / 2) * (s / 2) < -1 / 2 * (-1 / 2) + t * t) : False := by
  have h3 : 0 ≤ (t + (s / 2 - 1)) * ((s / 2 - 1) - t) :=
    mul_nonneg (by linarith) (by linarith)
  nlinarith

/-- When the four corners of a buffer pixel lie outside the circle of radius
`s / 2` about `(s / 2, s / 2)`, with `s ≥ 2`, so does every point of the pixel. -/
theorem pixel_outside_of_corners (s x y : Int) (hs : 2 ≤ s)
    (hx0 : 0 ≤ x) (hx : x < s) (hy0 : 0 ≤ y) (hy : y < s)
    (h00 : ((s:ℝ)/2) * ((s:ℝ)/2) < ((x:ℝ) - (s:ℝ)/2) * ((x:ℝ) - (s:ℝ)/2) + ((y:ℝ) - (s:ℝ)/2) * ((y:ℝ) - (s:ℝ)/2))
    (h10 : ((s:ℝ)/2) * ((s:ℝ)/2) < ((x:ℝ) + 1 - (s:ℝ)/2) * ((x:ℝ) + 1 - (s:ℝ)/2) + ((y:ℝ) - (s:ℝ)/2) * ((y:ℝ) - (s:ℝ)/2))
    (h01 : ((s:ℝ)/2) * ((s:ℝ)/2) < ((x:ℝ) - (s:ℝ)/2) * ((x:ℝ) - (s:ℝ)/2) + ((y:ℝ) + 1 - (s:ℝ)/2) * ((y:ℝ) + 1 - (s:ℝ)/2))
    (h11 : ((s:ℝ)/2) * ((s:ℝ)/2) < ((x:ℝ) + 1 - (s:ℝ)/2) * ((x:ℝ) + 1 - (s:ℝ)/2) + ((y:ℝ) + 1 - (s:ℝ)/2) * ((y:ℝ) + 1 - (s:ℝ)/2))
    (p : ℝ × ℝ) (hp1 : (x:ℝ) ≤ p.1) (hp2 : p.1 ≤ (x:ℝ) + 1) (hp3 : (y:ℝ) ≤ p.2) (hp4 : p.2 ≤ (y:ℝ) + 1) :
    ((s:ℝ)/2) * ((s:ℝ)/2) < (p.1 - (s:ℝ)/2) * (p.1 - (s:ℝ)/2) + (p.2 - (s:ℝ)/2) * (p.2 - (s:ℝ)/2) := by
  have hsR : (2:ℝ) ≤ (s:ℝ) := by exact_mod_cast hs
  have hx0R : (0:ℝ) ≤ (x:ℝ) := by exact_mod_cast hx0
  have hy0R : (0:ℝ) ≤ (y:ℝ) := by exact_mod_cast hy0
  have hxR : (x:ℝ) + 1 ≤ (s:ℝ) := by exact_mod_cast hx
  have hyR : (y:ℝ) + 1 ≤ (s:ℝ) := by exact_mod_cast hy
  rcases coord_bound x s p.1 hp1 hp2 with ⟨cx, bx⟩ | ⟨cx, bx⟩ | ex <;>
  rcases coord_bound y s p.2 hp3 hp4 with ⟨cy, by_⟩ | ⟨cy, by_⟩ | ey
  · linarith
  · linarith
  · exfalso
    have e : (y:ℝ) - (s:ℝ) / 2 = -1 / 2 := by
      have : (s:ℝ) = 2 * (y:ℝ) + 1 := by exact_mod_cast ey
      linarith
    have c : (s:ℝ) ≤ 2 * (x:ℝ) := by exact_mod_cast cx
    rw [e] at h00
    exact mid_contra (s:ℝ) ((x:ℝ) - (s:ℝ) / 2) (by linarith) (by linarith) (by linarith)
  · linarith
  · linarith
  · exfalso
    have e : (y:ℝ) - (s:ℝ) / 2 = -1 / 2 := by
      have : (s:ℝ) = 2 * (y:ℝ) + 1 := by exact_mod_cast ey
      linarith
    have c : 2 * (x:ℝ) + 2 ≤ (s:ℝ) := by exact_mod_cast cx
    rw [e] at h10
    exact mid_contra (s:ℝ) ((x:ℝ) + 1 - (s:ℝ) / 2) (by linarith) (by linarith) (by linarith)
  · exfalso
    have e : (x:ℝ) - (s:ℝ) / 2 = -1 / 2 := by
      have : (s:ℝ) = 2 * (x:ℝ) + 1 := by exact_mod_cast ex
      linarith
    have c : (s:ℝ) ≤ 2 * (y:ℝ) := by exact_mod_cast cy
    rw [e] at h00
    exact mid_contra (s:ℝ) ((y:ℝ) - (s:ℝ) / 2) (by linarith) (by linarith) (by linarith)
  · exfalso
    have e : (x:ℝ) - (s:ℝ) / 2 = -1 / 2 := by
      have : (s:ℝ) = 2 * (x:ℝ) + 1 := by exact_mod_cast ex
      linarith
    have c : 2 * (y:ℝ) + 2 ≤ (s:ℝ) := by exact_mod_cast cy
    rw [e] at h01
    exact mid_contra (s:ℝ) ((y:ℝ) + 1 - (s:ℝ) / 2) (by linarith) (by linarith) (by linarith)
  · exfalso
    have e : (x:ℝ) - (s:ℝ) / 2 = -1 / 2 := by
      have : (s:ℝ) = 2 * (x:ℝ) + 1 := by exact_mod_cast ex
      linarith
    have e2 : (y:ℝ) - (s:ℝ) / 2 = -1 / 2 := by
      have : (s:ℝ) = 2 * (y:ℝ) + 1 := by exact_mod_cast ey
      linarith
    have h3 : (3:ℝ) ≤ (s:ℝ) := by
      have : (3:Int) ≤ s := by omega
      exact_mod_cast this
    rw [e, e2] at h00
    exact mid_contra (s:ℝ) (-1 / 2) (by linarith) (by linarith) h00

/-- C6 (amended): in HSV mode, for a buffer pixel (x, y) whose computed distance
is greater than 1, the point (x, y) at which the distance is computed lies
outside the clip circle; no point of the unit square of the pixel lies inside the
clip circle, and the pixel receives no colour, when size <= 2 x and size <= 2 y
(the corner (x, y) is then the point of the pixel nearest to the centre), and
also, for size >= 2, when the distances computed at the other three corners
(x+1, y), (x, y+1) and (x+1, y+1) are greater than 1 as well. -/
theorem C6_outside_pixels_unpainted (gimp_hsv_to_rgb4 : ℝ → ℝ → ℝ → RGB)
    (stride size x y : Int) (hx0 : 0 ≤ x) (hx : x < size) (hy0 : 0 ≤ y) (hy : y < size)
    (hd : 1 < wheel_distance size x y) :
    ¬ (clip_circle realLibM size).contains ((x : ℝ), (y : ℝ)) ∧
    (size ≤ 2 * x → size ≤ 2 * y →
      (∀ p : ℝ × ℝ, in_pixel x y p → ¬ (clip_circle realLibM size).contains p) ∧
      ¬ receives_colour
          (gimp_circle_draw_background realLibM gimp_hsv_to_rgb4 stride size
            GIMP_CIRCLE_BACKGROUND_HSV) x y) ∧
    (2 ≤ size → 1 < wheel_distance size (x + 1) y → 1 < wheel_distance size x (y + 1) →
      1 < wheel_distance size (x + 1) (y + 1) →
      (∀ p : ℝ × ℝ, in_pixel x y p → ¬ (clip_circle realLibM size).contains p) ∧
      ¬ receives_colour
          (gimp_circle_draw_background realLibM gimp_hsv_to_rgb4 stride size
            GIMP_CIRCLE_BACKGROUND_HSV) x y) := by
  have hsize : 0 < size := by omega
  have hout := wheel_distance_gt_one size x y hsize hd
  simp only [SQR] at hout
  have hrec : (∀ p : ℝ × ℝ, in_pixel x y p → ¬ (clip_circle realLibM size).contains p) →
      ¬ receives_colour
          (gimp_circle_draw_background realLibM gimp_hsv_to_rgb4 stride size
            GIMP_CIRCLE_BACKGROUND_HSV) x y := by
    intro hall
    rw [raster_receives_colour_iff realLibM gimp_hsv_to_rgb4 stride size _ (by decide)]
    rintro ⟨_, p, hp, hc⟩
    exact hall p hp hc
  refine ⟨?_, ?_, ?_⟩
  · simp only [Arc.contains, clip_circle, SQR, not_le]
    exact hout
  · intro hqx hqy
    have hxr : (size : ℝ) / 2 ≤ (x : ℝ) := by
      have : (size : ℝ) ≤ 2 * (x : ℝ) := by exact_mod_cast hqx
      linarith
    have hyr : (size : ℝ) / 2 ≤ (y : ℝ) := by
      have : (size : ℝ) ≤ 2 * (y : ℝ) := by exact_mod_cast hqy
      linarith
    have hall : ∀ p : ℝ × ℝ, in_pixel x y p → ¬ (clip_circle realLibM size).contains p := by
      rintro p ⟨h1, _, h3, _⟩
      simp only [Arc.contains, clip_circle, SQR, not_le]
      nlinarith [mul_nonneg (sub_nonneg.mpr hxr) (sub_nonneg.mpr h1),
        mul_nonneg (sub_nonneg.mpr hyr) (sub_nonneg.mpr h3),
        mul_self_nonneg (p.1 - (x : ℝ)), mul_self_nonneg (p.2 - (y : ℝ))]
    exact ⟨hall, hrec hall⟩
  · intro hs2 hd10 hd01 hd11
    have h10 := wheel_distance_gt_one size (x + 1) y hsize hd10
    have h01 := wheel_distance_gt_one size x (y + 1) hsize hd01
    have h11 := wheel_distance_gt_one size (x + 1) (y + 1) hsize hd11
    simp only [SQR, Int.cast_add, Int.cast_one] at h10 h01 h11
    have hall : ∀ p : ℝ × ℝ, in_pixel x y p → ¬ (clip_circle realLibM size).contains p := by
      rintro p ⟨h1, h2, h3, h4⟩
      simp only [Arc.contains, clip_circle, SQR, not_le]
      exact pixel_outside_of_corners size x y hs2 hx0 hx hy0 hy hout h10 h01 h11 p h1 h2 h3 h4
    exact ⟨hall, hrec hall⟩

/-- The computed distance of the pixel (31, 31) of a 32 x 32 wheel exceeds 1. -/
theorem wheel_distance_32_31_31 : 1 < wheel_distance 32 31 31 := by
  have hr : (0 : ℝ) < ((32 : Int) : ℝ) / 2 := by norm_num
  rw [wheel_distance, distance_eq_euclidean_div _ _ _ _ _ hr, one_lt_div hr,
    euclidean_distance, Real.lt_sqrt hr.le]
  norm_num

/-- C6 at the pixel (31, 31) of a 32 x 32 wheel: it receives no colour. -/
theorem C6_outside_pixels_unpainted_witness :
    ¬ receives_colour
        (gimp_circle_draw_background realLibM (fun _ _ _ => ⟨255, 255, 255⟩) 128 32
          GIMP_CIRCLE_BACKGROUND_HSV) 31 31 :=
  ((C6_outside_pixels_unpainted (fun _ _ _ => ⟨255, 255, 255⟩) 128 32 31 31
    (by decide) (by decide) (by decide) (by decide) wheel_distance_32_31_31).2.1
    (by decide) (by decide)).2

/-- C6 fails as stated: in a 32 x 32 HSV wheel the buffer pixel (0, 15) has a
computed distance greater than 1, yet the midpoint (0.5, 15.5) of its unit square
lies inside the clip circle, and the pixel receives colour. -/
theorem C6_counterexample :
    ((0 : Int) ≤ 0 ∧ (0 : Int) < 32 ∧ (0 : Int) ≤ 15 ∧ (15 : Int) < 32) ∧
    1 < wheel_distance 32 0 15 ∧
    (in_pixel 0 15 ((0.5 : ℝ), (15.5 : ℝ)) ∧
      (clip_circle realLibM 32).contains ((0.5 : ℝ), (15.5 : ℝ))) ∧
    receives_colour
      (gimp_circle_draw_background realLibM (fun _ _ _ => ⟨255, 255, 255⟩) 128 32
        GIMP_CIRCLE_BACKGROUND_HSV) 0 15 := by
  have hin : in_pixel 0 15 ((0.5 : ℝ), (15.5 : ℝ)) := by
    simp only [in_pixel, Int.cast_ofNat, Int.cast_zero]; norm_num
  have hc : (clip_circle realLibM 32).contains ((0.5 : ℝ), (15.5 : ℝ)) := by
    simp only [Arc.contains, clip_circle, SQR, Int.cast_ofNat]; norm_num
  refine ⟨by decide, ?_, ⟨hin, hc⟩, ?_⟩
  · have hr : (0 : ℝ) < ((32 : Int) : ℝ) / 2 := by norm_num
    rw [wheel_distance, distance_eq_euclidean_div _ _ _ _ _ hr, one_lt_div hr,
      euclidean_distance, Real.lt_sqrt hr.le]
    norm_num
  · rw [raster_receives_colour_iff realLibM _ 128 32 _ (by decide)]
    exact ⟨by decide, _, hin, hc⟩

/-! ## Theorems: the centre pixel -/

/-- C8 (amended): for every even size in 32..1024 the pixel (size/2, size/2) of
the HSV wheel has computed distance 0, so the colour conversion receives
saturation 0 and value 1 whatever the hue, the same saturation and value as for
the pixel (50, 50) of the size-100 wheel. -/
theorem C8_centre_pixel_even (size : Int) (hlo : 32 ≤ size) (hhi : size ≤ 1024)
    (heven : 2 ∣ size) :
    wheel_distance size (gint_div size 2) (gint_div size 2) = 0 ∧
    (wheel_hsv size (gint_div size 2) (gint_div size 2)).2 = (0, 1) ∧
    (wheel_hsv size (gint_div size 2) (gint_div size 2)).2 = (wheel_hsv 100 50 50).2 ∧
    (∀ (β : Type) (gimp_hsv_to_rgb4 : ℝ → ℝ → ℝ → β) (rgb0 : β),
      pixel_colour realLibM gimp_hsv_to_rgb4 rgb0 size GIMP_CIRCLE_BACKGROUND_HSV
          (gint_div size 2) (gint_div size 2)
        = gimp_hsv_to_rgb4 (wheel_hsv size (gint_div size 2) (gint_div size 2)).1 0 1) := by
  obtain ⟨k, rfl⟩ := heven
  have hc : gint_div (2 * k) 2 = k := by
    simp only [gint_div]
    rw [Int.tdiv_eq_ediv (by omega) (by omega)]
    omega
  have hk : (((2 * k : Int) : ℝ)) / 2 = (k : ℝ) := by push_cast; ring
  have hs : realLibM.sqrt = Real.sqrt := rfl
  have hdist : ∀ n c : Int, ((n : ℝ)) / 2 = (c : ℝ) → wheel_distance n c c = 0 := by
    intro n c h
    simp only [wheel_distance, get_angle_and_distance, hs, h, SQR, sub_self, mul_zero,
      add_zero, zero_div, Real.sqrt_zero]
  have hsv : ∀ n c : Int, ((n : ℝ)) / 2 = (c : ℝ) → (wheel_hsv n c c).2 = (0, 1) := by
    intro n c h
    simp only [wheel_hsv, pixel_colour, if_true, gimp_circle_background_hsv,
      get_angle_and_distance, hs, h, SQR, sub_self, mul_zero, add_zero, zero_div,
      Real.sqrt_zero, sub_zero]
  rw [hc]
  refine ⟨hdist _ _ hk, hsv _ _ hk, ?_, ?_⟩
  · rw [hsv _ _ hk, hsv 100 50 (by norm_num)]
  · intro β conv rgb0
    simp only [wheel_hsv, pixel_colour, if_true, gimp_circle_background_hsv,
      get_angle_and_distance, hs, hk, SQR, sub_self, mul_zero, add_zero, zero_div,
      Real.sqrt_zero, sub_zero]

/-- C8 at the default size 96: the centre pixel (48, 48) has distance 0. -/
theorem C8_centre_pixel_even_witness :
    wheel_distance 96 (gint_div 96 2) (gint_div 96 2) = 0 :=
  (C8_centre_pixel_even 96 (by decide) (by decide) (by decide)).1

/-- C8 fails as stated: for the admitted size 33 the pixel
(33/2, 33/2) = (16, 16) has a non-zero computed distance, which is the saturation
handed to the colour conversion, unlike the pixel (50, 50) of the size-100 wheel. -/
theorem C8_counterexample :
    ((32 : Int) ≤ 33 ∧ (33 : Int) ≤ 1024) ∧
    gint_div 33 2 = 16 ∧
    wheel_distance 33 (gint_div 33 2) (gint_div 33 2) ≠ 0 ∧
    (wheel_hsv 33 (gint_div 33 2) (gint_div 33 2)).2.1 ≠ (wheel_hsv 100 50 50).2.1 := by
  have hs : realLibM.sqrt = Real.sqrt := rfl
  have hc : gint_div 33 2 = 16 := by decide
  have hpos : 0 < wheel_distance 33 16 16 := by
    simp only [wheel_distance, get_angle_and_distance, hs, SQR]
    apply Real.sqrt_pos.mpr
    norm_num
  have h100 : (wheel_hsv 100 50 50).2.1 = 0 := by
    simp only [wheel_hsv, pixel_colour, if_true, gimp_circle_background_hsv,
      get_angle_and_distance, hs, SQR]
    norm_num
  have h33 : (wheel_hsv 33 16 16).2.1 = wheel_distance 33 16 16 := rfl
  rw [hc]
  refine ⟨by decide, rfl, hpos.ne.symm, ?_⟩
  rw [h100, h33]
  exact hpos.ne.symm

end Gimp
